import Mathlib

/-!
# Verification of the search-demand dashboard ingestion pipeline

A shallow embedding of the tolerant tabular ingestion and normalization
pipeline of `search-demand-cascading.py`: multi-format date parsing,
row cleaning, per-keyword transforms (normalize / smooth / growth rate),
the top-N keyword selector, and the column-role auto-detection.

Numeric cell values are modelled as rationals; textual cells as lists of
characters.  Calls into pandas are modelled by their documented behaviour
(`pd.to_datetime` with an explicit `format=` raises on the first value that
does not match, so a format is adopted all-or-nothing for a column;
without a format and with `errors='coerce'` each cell is parsed permissively
and failures become `NaT`; the `dayfirst` flag defaults to `False`).
-/

namespace SearchDemand

/-- A calendar date assembled from parsed year/month/day fields. -/
structure Date where
  year : Nat
  month : Nat
  day : Nat
deriving DecidableEq, Repr

/-- Gregorian leap-year rule. -/
def isLeap (y : Nat) : Bool :=
  (y % 4 == 0 && y % 100 != 0) || y % 400 == 0

/-- Number of days of month `m` in year `y`. -/
def daysInMonth (y m : Nat) : Nat :=
  if m = 2 then (if isLeap y then 29 else 28)
  else if m = 4 ∨ m = 6 ∨ m = 9 ∨ m = 11 then 30
  else 31

/-- Build a date, checking month and day ranges (as a strict date parser does). -/
def mkDate (y m d : Nat) : Option Date :=
  if 1 ≤ m ∧ m ≤ 12 ∧ 1 ≤ d ∧ d ≤ daysInMonth y m then some ⟨y, m, d⟩ else none

/-- Numeric value of a list of decimal digit characters. -/
def digitsVal (cs : List Char) : Nat :=
  cs.foldl (fun acc c => acc * 10 + (c.toNat - Char.toNat '0')) 0

/-- A non-empty all-digit field, with its numeric value. -/
def numField (cs : List Char) : Option Nat :=
  if cs ≠ [] ∧ cs.all Char.isDigit then some (digitsVal cs) else none

/-- Split a character list on a separator character (like `str.split`,
an empty input yields one empty field). -/
def splitOnChar (sep : Char) : List Char → List (List Char)
  | [] => [[]]
  | c :: rest =>
    let r := splitOnChar sep rest
    if c = sep then [] :: r
    else
      match r with
      | [] => [[c]]
      | f :: t => (c :: f) :: t

/-- The six explicit patterns tried in order by `parse_dates`
(`%Y-%m-%d`, `%m/%d/%Y`, `%d/%m/%Y`, `%Y/%m/%d`, `%d-%m-%Y`, `%m-%d-%Y`). -/
inductive DateFmt
  | ymdDash
  | mdySlash
  | dmySlash
  | ymdSlash
  | dmyDash
  | mdyDash
deriving DecidableEq, Repr

/-- Separator character of a pattern. -/
def fmtSep : DateFmt → Char
  | .ymdDash => '-'
  | .dmyDash => '-'
  | .mdyDash => '-'
  | _ => '/'

/-- A year field: one to four digits (strptime `%Y`). -/
def yearField (cs : List Char) : Option Nat :=
  (numField cs).bind (fun n => if cs.length ≤ 4 then some n else none)

/-- A month or day field: one or two digits (strptime `%m` / `%d`). -/
def twoDigitField (cs : List Char) : Option Nat :=
  (numField cs).bind (fun n => if cs.length ≤ 2 then some n else none)

/-- Assemble a date from year, month and day fields, validating ranges. -/
def buildDate (ys ms dsf : List Char) : Option Date :=
  match yearField ys, twoDigitField ms, twoDigitField dsf with
  | some y, some m, some d => mkDate y m d
  | _, _, _ => none

/-- Parse one cell strictly under one of the six explicit patterns. -/
def parseWithFmt (f : DateFmt) (cs : List Char) : Option Date :=
  match splitOnChar (fmtSep f) cs with
  | [a, b, c] =>
    match f with
    | .ymdDash => buildDate a b c
    | .ymdSlash => buildDate a b c
    | .mdySlash => buildDate c a b
    | .mdyDash => buildDate c a b
    | .dmySlash => buildDate c b a
    | .dmyDash => buildDate c b a
  | _ => none

/-- The fixed order in which `parse_dates` tries the explicit patterns. -/
def fmtList : List DateFmt :=
  [.ymdDash, .mdySlash, .dmySlash, .ymdSlash, .dmyDash, .mdyDash]

/-- Parse a whole column under one pattern; `none` as soon as any cell fails
(`pd.to_datetime(col, format=fmt)` raises if any value does not match). -/
def parseColumnWith (f : DateFmt) : List (List Char) → Option (List Date)
  | [] => some []
  | c :: rest =>
    match parseWithFmt f c, parseColumnWith f rest with
    | some d, some t => some (d :: t)
    | _, _ => none

/-- The first explicit pattern (in `fmtList` order) that parses every cell
of the column, if any. -/
def chosenFmt (col : List (List Char)) : Option DateFmt :=
  fmtList.find? (fun f => (parseColumnWith f col).isSome)

/-- Permissive single-cell parse, modelling the dateutil parser behind
`pd.to_datetime` without an explicit format: split on `/` or `-`; a four-digit
leading field is a year (`Y-M-D`); otherwise with a four-digit trailing year
the first two fields are month/day, preferred in the order given by
`dayfirst`, swapped if the preferred reading is invalid. -/
def permissiveCell (dayfirst : Bool) (cs : List Char) : Option Date :=
  let fields :=
    match splitOnChar '/' cs with
    | [a, b, c] => some (a, b, c)
    | _ =>
      match splitOnChar '-' cs with
      | [a, b, c] => some (a, b, c)
      | _ => none
  match fields with
  | none => none
  | some (a, b, c) =>
    match numField a, numField b, numField c with
    | some x, some y, some z =>
      if a.length = 4 then mkDate x y z
      else if c.length = 4 then
        if dayfirst then (mkDate z y x).or (mkDate z x y)
        else (mkDate z x y).or (mkDate z y x)
      else none
    | _, _, _ => none

/-- `parse_dates` (source lines 62–70): try each explicit pattern against the
entire column, adopting the first that parses every cell; otherwise fall back
to the permissive per-cell parse with pandas' default `dayfirst=False`,
unparseable cells becoming `none` (`NaT`). -/
def parse_dates (col : List (List Char)) : List (Option Date) :=
  match chosenFmt col with
  | some f => col.map (parseWithFmt f)
  | none => col.map (permissiveCell false)

/-- Modelled from the spec: the spec describes the fallback as "a permissive
day-first parse where each cell is parsed independently", i.e. the same
permissive parser with the day-first preference. -/
def specDayFirstFallback (col : List (List Char)) : List (Option Date) :=
  col.map (permissiveCell true)

/-- The ambiguous cell `01/02/2023` (January 2 month-first, February 1 day-first). -/
def cellJanFeb : List Char := ['0', '1', '/', '0', '2', '/', '2', '0', '2', '3']

/-- A cell that no date parser accepts. -/
def badCell : List Char := ['n', 'o', 'p', 'e']

/-- A column on which every explicit pattern fails, forcing the fallback path. -/
def mixedCol : List (List Char) := [cellJanFeb, badCell]

/-- The spec's date-format-consistency example column
`["01/02/2023", "02/03/2023", "03/04/2023"]`. -/
def dateColExample : List (List Char) :=
  [['0', '1', '/', '0', '2', '/', '2', '0', '2', '3'],
   ['0', '2', '/', '0', '3', '/', '2', '0', '2', '3'],
   ['0', '3', '/', '0', '4', '/', '2', '0', '2', '3']]

/-! ## Per-entity transforms (source lines 144–173)

A keyword group's value series (ordered by ascending date, as produced by the
sort preceding the growth-rate mode) is a `List ℚ`. -/

/-- Minimum of a value series (`Series.min` over a nonempty group). -/
def colMin : List ℚ → ℚ
  | [] => 0
  | [x] => x
  | x :: y :: t => min x (colMin (y :: t))

/-- Maximum of a value series (`Series.max` over a nonempty group). -/
def colMax : List ℚ → ℚ
  | [] => 0
  | [x] => x
  | x :: y :: t => max x (colMax (y :: t))

/-- Normalized mode for one keyword group (source lines 155–157):
`(x - x.min()) / (x.max() - x.min()) * 100` when `x.max() > x.min()`,
otherwise the scalar `50` broadcast over the group. -/
def normalizeGroup (xs : List ℚ) : List ℚ :=
  if colMax xs > colMin xs then
    xs.map (fun x => (x - colMin xs) / (colMax xs - colMin xs) * 100)
  else
    xs.map (fun _ => 50)

/-- Growth-rate mode for one keyword group (source lines 163–166):
`pct_change() * 100` followed by `fillna(0)`, which replaces the leading
missing entry by `0`. -/
def growthGroup : List ℚ → List ℚ
  | [] => []
  | x :: rest => 0 :: List.zipWith (fun prev cur => (cur - prev) / prev * 100) (x :: rest) rest

/-- The trailing window of width `w` ending at index `i`
(`min_periods=1`: at the series start the window is just the prefix). -/
def rollWindow (w : Nat) (xs : List ℚ) (i : Nat) : List ℚ :=
  (xs.take (i + 1)).drop (i + 1 - w)

/-- Trailing rolling mean with `min_periods=1` (source lines 145–147):
entry `i` is the mean of the last `min (i+1) w` values up to and including `i`. -/
def rollingMean (w : Nat) (xs : List ℚ) : List ℚ :=
  (List.range xs.length).map (fun i => (rollWindow w xs i).sum / (rollWindow w xs i).length)

/-- The three display modes of the sidebar radio control. -/
inductive Mode
  | normalized
  | absolute
  | growth
deriving DecidableEq, Repr

/-- Mode-specific formula applied to one keyword group's value series. -/
def modeApply : Mode → List ℚ → List ℚ
  | .normalized, xs => normalizeGroup xs
  | .growth, xs => growthGroup xs
  | .absolute, xs => xs

/-- Full per-group display pipeline (source lines 144–173): optional smoothing
replaces the raw series by its rolling mean before the mode formula runs. -/
def displayGroup (mode : Mode) (smoothing : Nat) (xs : List ℚ) : List ℚ :=
  modeApply mode (if smoothing > 0 then rollingMean smoothing xs else xs)

/-! ## The working table and `groupby('keyword').transform` -/

/-- One row of the working table at the transform stage. -/
structure Obs where
  keyword : String
  date : Nat
  value : ℚ
deriving DecidableEq, Repr

/-- The value series of one keyword group, in row order (`groupby` keeps the
original row order within each group). -/
def groupVals (ds : List Obs) (k : String) : List ℚ :=
  (ds.filter (fun o => o.keyword == k)).map (fun o => o.value)

/-- Number of rows of keyword `k`. -/
def countK (ds : List Obs) (k : String) : Nat :=
  (ds.filter (fun o => o.keyword == k)).length

/-- Worker for `transform`: each row receives the entry of `f` applied to its
group's full series, at the row's position within its group; `cnt` counts the
rows of each keyword already emitted. -/
def transformGo (f : List ℚ → List ℚ) (ds : List Obs) :
    List Obs → (String → Nat) → List ℚ
  | [], _ => []
  | o :: rest, cnt =>
    (f (groupVals ds o.keyword)).getD (cnt o.keyword) 0 ::
      transformGo f ds rest (fun k => if k = o.keyword then cnt k + 1 else cnt k)

/-- `df.groupby('keyword')[col].transform(f)` (source lines 145–147):
per-group application of `f`, aligned back to the original row order. -/
def transformBy (f : List ℚ → List ℚ) (ds : List Obs) : List ℚ :=
  transformGo f ds ds (fun _ => 0)

/-- The output entries attached to the rows of keyword `k`, in row order. -/
def groupOut (ds : List Obs) (out : List ℚ) (k : String) : List ℚ :=
  ((ds.zip out).filter (fun p => p.fst.keyword == k)).map (fun p => p.snd)

/-- Keyword label used in concrete tables. -/
def kwA : String := "A"

/-- Keyword label used in concrete tables. -/
def kwB : String := "B"

/-- A small working table with two interleaved keywords. -/
def obsExample : List Obs := [⟨kwA, 0, 10⟩, ⟨kwB, 0, 5⟩, ⟨kwA, 1, 30⟩]

/-! ## Top-N keyword selection for the racing bar chart (source lines 210–223) -/

/-- A plotted row: keyword, date, and the mode-derived display value. -/
structure PlotRow where
  keyword : String
  date : Nat
  display : ℚ
deriving DecidableEq, Repr

/-- Boolean membership test on keyword lists. -/
def memStr (k : String) (l : List String) : Bool := l.any (fun s => s == k)

/-- The rows at one date (`plot_df[plot_df['date'] == date]`). -/
def rowsAt (ds : List PlotRow) (d : Nat) : List PlotRow :=
  ds.filter (fun r => r.date == d)

/-- Descending order on display value, used to model `nlargest`. -/
def dispGE (a b : PlotRow) : Prop := b.display ≤ a.display

instance : DecidableRel dispGE :=
  fun a b => inferInstanceAs (Decidable (b.display ≤ a.display))

/-- `date_df.nlargest(top_n, 'display_value')['keyword'].unique()`: keywords of
the `n` rows with the largest display values. -/
def nlargestKw (n : Nat) (rows : List PlotRow) : List String :=
  (((rows.insertionSort dispGE).take n).map (fun r => r.keyword)).dedup

/-- The local top-N keyword set of one date. -/
def topKeywordsAt (n : Nat) (ds : List PlotRow) (d : Nat) : List String :=
  nlargestKw n (rowsAt ds d)

/-- The distinct dates of the table (`plot_df['date'].unique()`). -/
def datesOf (ds : List PlotRow) : List Nat :=
  (ds.map (fun r => r.date)).dedup

/-- Union over all dates of the local top-N keyword sets
(`all_top_keywords`, source lines 219–221). -/
def allTopKeywords (n : Nat) (ds : List PlotRow) : List String :=
  (datesOf ds).flatMap (topKeywordsAt n ds)

/-- The top-N filter (source lines 210–223): with `n > 0`, keep the rows whose
keyword is in the union of the per-date top-N sets; with `n = 0`, keep all. -/
def topNFilter (n : Nat) (ds : List PlotRow) : List PlotRow :=
  if 0 < n then ds.filter (fun r => memStr r.keyword (allTopKeywords n ds)) else ds

/-- Keyword label used in concrete tables. -/
def kwC : String := "C"

/-- Keyword label used in concrete tables. -/
def kwD : String := "D"

/-- The spec's top-N example: at date 1 the top-2 are `{A, B}`, at date 2 the
top-2 are `{B, C}`, and keyword `D` is never in a local top-2. -/
def plotExample : List PlotRow :=
  [⟨kwA, 1, 10⟩, ⟨kwB, 1, 8⟩, ⟨kwC, 1, 5⟩, ⟨kwD, 1, 1⟩,
   ⟨kwA, 2, 3⟩, ⟨kwB, 2, 9⟩, ⟨kwC, 2, 7⟩, ⟨kwD, 2, 1⟩]

/-! ## Row cleaning after ingestion (source lines 122–127) -/

/-- An unsigned decimal numeral: digits with an optional fractional part. -/
def parseUnsigned (cs : List Char) : Option ℚ :=
  match splitOnChar '.' cs with
  | [ipart] => (numField ipart).map (fun n => (n : ℚ))
  | [ipart, fpart] =>
    match numField ipart, numField fpart with
    | some i, some f => some ((i : ℚ) + (f : ℚ) / ((10 : ℚ) ^ fpart.length))
    | _, _ => none
  | _ => none

/-- `pd.to_numeric(cell, errors='coerce')` on one textual cell: an optionally
signed decimal numeral, `none` (NaN) for anything else. -/
def parseNumQ (cs : List Char) : Option ℚ :=
  match cs with
  | '-' :: rest => (parseUnsigned rest).map (fun q => -q)
  | '+' :: rest => parseUnsigned rest
  | _ => parseUnsigned cs

/-- A row as it leaves date parsing: the parsed timestamp (`none` = `NaT`)
and the raw value cell (`none` = missing). -/
structure RawRow where
  keyword : String
  date : Option Date
  vol : Option (List Char)
deriving DecidableEq, Repr

/-- A row after `to_numeric`: the value is numeric or NaN (`none`). -/
structure NumRow where
  keyword : String
  date : Option Date
  num : Option ℚ
deriving DecidableEq, Repr

/-- `df.dropna(subset=['date', 'search_volume'])` (source line 123). -/
def dropNaStep (rows : List RawRow) : List RawRow :=
  rows.filter (fun r => r.date.isSome && r.vol.isSome)

/-- `pd.to_numeric(df['search_volume'], errors='coerce')` (source line 126). -/
def toNumericStep (rows : List RawRow) : List NumRow :=
  rows.map (fun r => ⟨r.keyword, r.date, r.vol.bind parseNumQ⟩)

/-- `df.dropna(subset=['search_volume'])` (source line 127). -/
def dropNaVolStep (rows : List NumRow) : List NumRow :=
  rows.filter (fun r => r.num.isSome)

/-- The full cleaning stage between ingestion and the transforms. -/
def processRows (rows : List RawRow) : List NumRow :=
  dropNaVolStep (toNumericStep (dropNaStep rows))

/-- A raw table with one clean row, one unparseable date, one non-numeric value. -/
def rawExample : List RawRow :=
  [⟨kwA, some ⟨2023, 1, 2⟩, some ['1', '0']⟩,
   ⟨kwB, none, some ['5']⟩,
   ⟨kwC, some ⟨2023, 1, 3⟩, some badCell⟩]

/-! ## Column-role auto-detection (source lines 83–109)

Models the branch taken when the required-column check reports missing names.
A `selectbox` manual fallback is modelled by its default return value: the
first entry of its candidate list (or no assignment when the list is empty).
-/

/-- `needle` starts the haystack. -/
def startsWithList : List Char → List Char → Bool
  | [], _ => true
  | _ :: _, [] => false
  | a :: as, b :: bs => a == b && startsWithList as bs

/-- `needle in hay` — contiguous substring test. -/
def hasSubstr (needle : List Char) : List Char → Bool
  | [] => needle.isEmpty
  | c :: rest => startsWithList needle (c :: rest) || hasSubstr needle rest

/-- The lowercased characters of a column name (`c.lower()`). -/
def lowerChars (s : String) : List Char := s.toList.map Char.toLower

/-- `tok in c.lower()` for a synonym token. -/
def strHas (c : String) (needle : List Char) : Bool := hasSubstr needle (lowerChars c)

/-- The synonym token `date`. -/
def nDate : List Char := ['d', 'a', 't', 'e']

/-- The synonym token `keyword`. -/
def nKeyword : List Char := ['k', 'e', 'y', 'w', 'o', 'r', 'd']

/-- The synonym token `term`. -/
def nTerm : List Char := ['t', 'e', 'r', 'm']

/-- The synonym token `kw`. -/
def nKw : List Char := ['k', 'w']

/-- The synonym token `volume`. -/
def nVolume : List Char := ['v', 'o', 'l', 'u', 'm', 'e']

/-- The synonym token `demand`. -/
def nDemand : List Char := ['d', 'e', 'm', 'a', 'n', 'd']

/-- The synonym token `traffic`. -/
def nTraffic : List Char := ['t', 'r', 'a', 'f', 'f', 'i', 'c']

/-- The canonical column name `keyword`. -/
def sKeyword : String := "keyword"

/-- The canonical column name `date`. -/
def sDate : String := "date"

/-- The canonical column name `search_volume`. -/
def sSearchVolume : String := "search_volume"

/-- The required-columns check (source line 85): canonical names with no
substring match among the table's columns. -/
def missingColumns (cols : List String) : List String :=
  ([sKeyword, sDate, sSearchVolume]).filter
    (fun req => !(cols.any (fun c => strHas c req.toList)))

/-- Auto-detection of the date column (source line 91). -/
def autoDate (cols : List String) : Option String :=
  cols.find? (fun c => strHas c nDate)

/-- The date column: auto-detected, else the manual selection over all
columns (source lines 91–93). -/
def dateColOf (cols : List String) : Option String :=
  match autoDate cols with
  | some c => some c
  | none => cols.head?

/-- `df['date'] = ...` (source line 95, via `parse_dates`) adds a `date`
column when none exists. -/
def colsAfterDate (cols : List String) : List String :=
  if sDate ∈ cols then cols else cols ++ [sDate]

/-- Auto-detection of the keyword column (source line 99). -/
def autoKw (cols₁ : List String) : Option String :=
  cols₁.find? (fun c => strHas c nKeyword || strHas c nTerm || strHas c nKw)

/-- The column renamed to `keyword` (source lines 98–102): skipped when an
exact `keyword` column exists; auto-detected, else the manual selection among
the columns other than the date column. -/
def kwChoice (cols : List String) : Option String :=
  if sKeyword ∈ colsAfterDate cols then none
  else
    match autoKw (colsAfterDate cols) with
    | some c => some c
    | none => ((colsAfterDate cols).filter (fun c => !(some c == dateColOf cols))).head?

/-- The columns after the keyword rename (source line 102). -/
def renamedCols (cols : List String) : List String :=
  match kwChoice cols with
  | some k => (colsAfterDate cols).map (fun c => if c = k then sKeyword else c)
  | none => colsAfterDate cols

/-- Auto-detection of the volume column (source line 106). -/
def autoVol (cols₂ : List String) : Option String :=
  cols₂.find? (fun c => strHas c nVolume || strHas c nDemand || strHas c nTraffic)

/-- The column renamed to `search_volume` (source lines 105–109): skipped when
an exact `search_volume` column exists; auto-detected, else the manual
selection among the columns other than the date column and `keyword`. -/
def volChoice (cols : List String) : Option String :=
  if sSearchVolume ∈ renamedCols cols then none
  else
    match autoVol (renamedCols cols) with
    | some c => some c
    | none =>
      ((renamedCols cols).filter
        (fun c => !(some c == dateColOf cols) && !(c == sKeyword))).head?

/-- The columns assigned to the three roles. -/
structure Resolution where
  dateCol : Option String
  kwCol : Option String
  volCol : Option String
deriving DecidableEq, Repr

/-- The whole role-resolution pass of the missing-columns branch. -/
def resolveRoles (cols : List String) : Resolution :=
  ⟨dateColOf cols, kwChoice cols, volChoice cols⟩

/-- A column name containing both the `date` and the `volume` synonym. -/
def sUpdateVolume : String := "update_volume"

/-- A column name matching the `kw` synonym. -/
def sKwCol : String := "kw"

/-- A table schema on which auto-detection assigns one column to two roles. -/
def resolverCexCols : List String := [sUpdateVolume, sKwCol]

/-- A generic column name with no synonym matches. -/
def sColA : String := "a"

/-- A generic column name with no synonym matches. -/
def sColB : String := "b"

/-- A generic two-column schema with no synonym matches at all. -/
def plainCols : List String := [sColA, sColB]

/-! ## Minimum data requirement on upload (source lines 77–81) -/

/-- Choice of the working table: a CSV that fails to parse (`none`) falls back
to the sample data, and a successfully parsed table with fewer than 2 data
rows is rejected (with an error message in the UI) in favour of the sample. -/
def loadUploaded (parsed : Option (List RawRow)) (sample : List RawRow) : List RawRow :=
  match parsed with
  | none => sample
  | some rows => if rows.length < 2 then sample else rows

/-- A one-row upload. -/
def smallUpload : List RawRow := [⟨kwB, some ⟨2023, 2, 1⟩, some ['7']⟩]


/-! ## Theorems -/

/-- A whole-column parse succeeds exactly when every cell parses under the pattern. -/
theorem parseColumnWith_isSome_eq (f : DateFmt) (col : List (List Char)) :
    (parseColumnWith f col).isSome = col.all (fun c => (parseWithFmt f c).isSome) := by
  induction col with
  | nil => simp [parseColumnWith]
  | cons c rest ih =>
    rw [List.all_cons, ← ih]
    show (match parseWithFmt f c, parseColumnWith f rest with
      | some d, some t => some (d :: t)
      | _, _ => none).isSome = _
    cases parseWithFmt f c <;> cases parseColumnWith f rest <;> simp

/-- A whole-column parse succeeds exactly when every cell parses under the pattern. -/
theorem parseColumnWith_isSome_iff (f : DateFmt) (col : List (List Char)) :
    (parseColumnWith f col).isSome ↔ ∀ c ∈ col, (parseWithFmt f c).isSome := by
  rw [parseColumnWith_isSome_eq]
  simp [List.all_eq_true]

/-- A failed whole-column parse pinpoints a cell that fails under the pattern. -/
theorem parseColumnWith_none_exists (f : DateFmt) (col : List (List Char))
    (h : parseColumnWith f col = none) : ∃ c ∈ col, parseWithFmt f c = none := by
  by_contra hcon
  push_neg at hcon
  have hs : (parseColumnWith f col).isSome := by
    rw [parseColumnWith_isSome_iff]
    intro c hc
    exact Option.isSome_iff_ne_none.mpr (hcon c hc)
  rw [h] at hs
  simp at hs

/-- `List.find?` returns a match such that everything before it fails the predicate. -/
theorem find?_eq_some_split {α : Type} (p : α → Bool) :
    ∀ {l : List α} {a : α}, l.find? p = some a →
      p a = true ∧ ∃ l₁ l₂, l = l₁ ++ a :: l₂ ∧ ∀ b ∈ l₁, p b = false := by
  intro l
  induction l with
  | nil => intro a h; simp [List.find?] at h
  | cons x t ih =>
    intro a h
    by_cases hx : p x
    · rw [List.find?_cons_of_pos _ hx] at h
      obtain rfl : x = a := by injection h
      exact ⟨hx, [], t, rfl, by simp⟩
    · rw [List.find?_cons_of_neg _ (by simpa using hx)] at h
      obtain ⟨hpa, l₁, l₂, hsplit, hfail⟩ := ih h
      refine ⟨hpa, x :: l₁, l₂, by rw [hsplit, List.cons_append], ?_⟩
      intro b hb
      rcases List.mem_cons.mp hb with rfl | hb₁
      · simpa using hx
      · exact hfail b hb₁

/-- **C1.** When some explicit pattern parses the whole column, `parse_dates`
adopts the first such pattern in the fixed order: every cell parses under it,
the output is that single pattern mapped over the whole column (so no two
cells are ever interpreted under different formats on this path), and every
pattern earlier in the fixed list fails on at least one cell. -/
theorem parse_dates_adopts_first_uniform_format (col : List (List Char)) (f : DateFmt)
    (h : chosenFmt col = some f) :
    (∀ c ∈ col, (parseWithFmt f c).isSome) ∧
    parse_dates col = col.map (parseWithFmt f) ∧
    ∃ pre suf, fmtList = pre ++ f :: suf ∧ ∀ g ∈ pre, ∃ c ∈ col, parseWithFmt g c = none := by
  obtain ⟨hpf, pre, suf, hsplit, hfail⟩ := find?_eq_some_split _ h
  refine ⟨(parseColumnWith_isSome_iff f col).mp hpf, by simp [parse_dates, h], pre, suf, hsplit, ?_⟩
  intro g hg
  apply parseColumnWith_none_exists
  have hfalse := hfail g hg
  cases hcase : parseColumnWith g col with
  | none => rfl
  | some t => rw [hcase] at hfalse; simp at hfalse

/-- **C1 witness.** On the spec's example column the first adopted pattern is
`%m/%d/%Y`, applied uniformly to all three cells. -/
theorem parse_dates_adopts_first_uniform_format_witness :
    chosenFmt dateColExample = some DateFmt.mdySlash ∧
    ((∀ c ∈ dateColExample, (parseWithFmt DateFmt.mdySlash c).isSome) ∧
     parse_dates dateColExample = dateColExample.map (parseWithFmt DateFmt.mdySlash) ∧
     ∃ pre suf, fmtList = pre ++ DateFmt.mdySlash :: suf ∧
       ∀ g ∈ pre, ∃ c ∈ dateColExample, parseWithFmt g c = none) :=
  ⟨by decide, parse_dates_adopts_first_uniform_format dateColExample DateFmt.mdySlash (by decide)⟩

/-- **C2 counterexample.** On a column where no explicit pattern fits, the
fallback is *not* the day-first permissive parse the claim describes: pandas'
default is `dayfirst=False`, so the ambiguous cell `01/02/2023` becomes
January 2 (month-first), while a day-first parse would give February 1. -/
theorem parse_dates_fallback_not_dayfirst_cex :
    chosenFmt mixedCol = none ∧
    parse_dates mixedCol ≠ specDayFirstFallback mixedCol ∧
    parse_dates mixedCol = [some ⟨2023, 1, 2⟩, none] ∧
    specDayFirstFallback mixedCol = [some ⟨2023, 2, 1⟩, none] := by decide

/-- **C2 amended.** When no explicit pattern parses the whole column,
`parse_dates` falls back to the permissive parse with pandas' default
*month-first* preference, applied to each cell independently; the output has
the same length as the input, and each cell's output is exactly the permissive
parse of that cell — `none` when it is unparseable, never a default date. -/
theorem parse_dates_fallback_per_cell_monthfirst (col : List (List Char))
    (h : chosenFmt col = none) :
    parse_dates col = col.map (permissiveCell false) ∧
    (parse_dates col).length = col.length ∧
    ∀ i : Nat, (parse_dates col).get? i = (col.get? i).map (permissiveCell false) := by
  refine ⟨by simp [parse_dates, h], by simp [parse_dates, h], ?_⟩
  intro i
  simp [parse_dates, h]

/-- **C2 amended witness.** On the concrete fallback column the unparseable
cell becomes `none`, the ambiguous cell is parsed month-first, and lengths agree. -/
theorem parse_dates_fallback_per_cell_monthfirst_witness :
    chosenFmt mixedCol = none ∧
    (parse_dates mixedCol = mixedCol.map (permissiveCell false) ∧
     (parse_dates mixedCol).length = mixedCol.length ∧
     ∀ i : Nat, (parse_dates mixedCol).get? i = (mixedCol.get? i).map (permissiveCell false)) :=
  ⟨by decide, parse_dates_fallback_per_cell_monthfirst mixedCol (by decide)⟩

/-- `colMin` is attained by a member of a nonempty series. -/
theorem colMin_mem : ∀ xs : List ℚ, xs ≠ [] → colMin xs ∈ xs := by
  intro xs
  induction xs with
  | nil => intro h; exact absurd rfl h
  | cons x t ih =>
    intro _
    cases t with
    | nil => simp [colMin]
    | cons y s =>
      simp only [colMin]
      rcases min_cases x (colMin (y :: s)) with ⟨hmin, _⟩ | ⟨hmin, _⟩
      · rw [hmin]; exact List.mem_cons_self _ _
      · rw [hmin]; exact List.mem_cons_of_mem _ (ih (by simp))

/-- `colMax` is attained by a member of a nonempty series. -/
theorem colMax_mem : ∀ xs : List ℚ, xs ≠ [] → colMax xs ∈ xs := by
  intro xs
  induction xs with
  | nil => intro h; exact absurd rfl h
  | cons x t ih =>
    intro _
    cases t with
    | nil => simp [colMax]
    | cons y s =>
      simp only [colMax]
      rcases max_cases x (colMax (y :: s)) with ⟨hmax, _⟩ | ⟨hmax, _⟩
      · rw [hmax]; exact List.mem_cons_self _ _
      · rw [hmax]; exact List.mem_cons_of_mem _ (ih (by simp))

/-- A function commuting with `min` maps `colMin` through a nonempty list. -/
theorem colMin_map (f : ℚ → ℚ) (hf : ∀ a b : ℚ, f (min a b) = min (f a) (f b)) :
    ∀ xs : List ℚ, xs ≠ [] → colMin (xs.map f) = f (colMin xs) := by
  intro xs
  induction xs with
  | nil => intro h; exact absurd rfl h
  | cons x t ih =>
    intro _
    cases t with
    | nil => simp [colMin]
    | cons y s =>
      have ih' := ih (by simp)
      simp only [List.map_cons] at ih' ⊢
      simp only [colMin, ih', hf]

/-- A function commuting with `max` maps `colMax` through a nonempty list. -/
theorem colMax_map (f : ℚ → ℚ) (hf : ∀ a b : ℚ, f (max a b) = max (f a) (f b)) :
    ∀ xs : List ℚ, xs ≠ [] → colMax (xs.map f) = f (colMax xs) := by
  intro xs
  induction xs with
  | nil => intro h; exact absurd rfl h
  | cons x t ih =>
    intro _
    cases t with
    | nil => simp [colMax]
    | cons y s =>
      have ih' := ih (by simp)
      simp only [List.map_cons] at ih' ⊢
      simp only [colMax, ih', hf]

/-- **C3.** For a nonempty keyword group whose series is non-degenerate
(`max > min`), normalized mode yields a series whose minimum is exactly `0`
and whose maximum is exactly `100`. -/
theorem normalized_group_range (xs : List ℚ) (hne : xs ≠ []) (hnd : colMin xs < colMax xs) :
    colMin (normalizeGroup xs) = 0 ∧ colMax (normalizeGroup xs) = 100 := by
  have hd : (0 : ℚ) < colMax xs - colMin xs := by linarith
  have hf : Monotone (fun x : ℚ => (x - colMin xs) / (colMax xs - colMin xs) * 100) := by
    intro a b hab
    dsimp only
    apply mul_le_mul_of_nonneg_right _ (by norm_num)
    exact (div_le_div_right hd).mpr (by linarith)
  rw [normalizeGroup, if_pos hnd]
  constructor
  · rw [colMin_map _ (fun a b => hf.map_min) xs hne]
    simp
  · rw [colMax_map _ (fun a b => hf.map_max) xs hne]
    rw [div_self (ne_of_gt hd), one_mul]

/-- **C3 witness.** The series `[1, 3, 2]` normalizes onto the full range. -/
theorem normalized_group_range_witness :
    (([1, 3, 2] : List ℚ) ≠ [] ∧ colMin ([1, 3, 2] : List ℚ) < colMax ([1, 3, 2] : List ℚ)) ∧
    (colMin (normalizeGroup ([1, 3, 2] : List ℚ)) = 0 ∧
     colMax (normalizeGroup ([1, 3, 2] : List ℚ)) = 100) :=
  ⟨⟨by decide, by decide⟩, normalized_group_range _ (by decide) (by decide)⟩

/-- **C4.** A degenerate keyword group (`max = min`, i.e. all values equal)
gets the neutral midpoint `50` for every member in normalized mode: the
division by zero is never taken. -/
theorem normalized_flat_group (xs : List ℚ) (h : colMax xs = colMin xs) :
    ∀ v ∈ normalizeGroup xs, v = 50 := by
  intro v hv
  rw [normalizeGroup, if_neg (by rw [h]; exact lt_irrefl _)] at hv
  obtain ⟨x, _, rfl⟩ := List.mem_map.mp hv
  rfl

/-- **C4 witness.** The flat series `[42, 42, 42]` maps entirely to `50`. -/
theorem normalized_flat_group_witness :
    colMax ([42, 42, 42] : List ℚ) = colMin ([42, 42, 42] : List ℚ) ∧
    ∀ v ∈ normalizeGroup ([42, 42, 42] : List ℚ), v = 50 :=
  ⟨by decide, normalized_flat_group _ (by decide)⟩

/-- `growthGroup` preserves the group's length. -/
theorem growthGroup_length (xs : List ℚ) : (growthGroup xs).length = xs.length := by
  cases xs with
  | nil => rfl
  | cons x rest => simp [growthGroup]

/-- **C5.** Within a keyword group (series sorted by ascending date), the
first growth-rate entry is exactly `0`, and each later entry `i+1` equals
`(raw[i+1] - raw[i]) / raw[i] * 100` whenever the previous raw value is
nonzero (the formula's divisor). -/
theorem growth_rate_formula (xs : List ℚ) (hne : xs ≠ []) :
    (growthGroup xs).get ⟨0, by rw [growthGroup_length]; exact List.length_pos.mpr hne⟩ = 0 ∧
    ∀ (i : Nat) (hi : i + 1 < xs.length), xs.get ⟨i, Nat.lt_of_succ_lt hi⟩ ≠ 0 →
      (growthGroup xs).get ⟨i + 1, by rw [growthGroup_length]; exact hi⟩ =
        (xs.get ⟨i + 1, hi⟩ - xs.get ⟨i, Nat.lt_of_succ_lt hi⟩) /
          xs.get ⟨i, Nat.lt_of_succ_lt hi⟩ * 100 := by
  cases xs with
  | nil => exact absurd rfl hne
  | cons x rest =>
    constructor
    · rfl
    · intro i hi _
      show (growthGroup (x :: rest)).get _ = _
      simp only [growthGroup]
      rw [List.get_cons_succ]
      rw [List.get_zipWith]
      congr 1

/-- **C5 witness.** For the group `[2, 3]` the first entry is `0` and the
second is `(3 - 2) / 2 * 100 = 50`. -/
theorem growth_rate_formula_witness :
    (([2, 3] : List ℚ) ≠ []) ∧
    ((growthGroup ([2, 3] : List ℚ)).get ⟨0, by decide⟩ = 0 ∧
     ∀ (i : Nat) (hi : i + 1 < ([2, 3] : List ℚ).length),
       ([2, 3] : List ℚ).get ⟨i, Nat.lt_of_succ_lt hi⟩ ≠ 0 →
       (growthGroup ([2, 3] : List ℚ)).get ⟨i + 1, by rw [growthGroup_length]; exact hi⟩ =
         (([2, 3] : List ℚ).get ⟨i + 1, hi⟩ - ([2, 3] : List ℚ).get ⟨i, Nat.lt_of_succ_lt hi⟩) /
           ([2, 3] : List ℚ).get ⟨i, Nat.lt_of_succ_lt hi⟩ * 100) :=
  ⟨by decide, growth_rate_formula ([2, 3] : List ℚ) (by decide)⟩

/-- The rolling mean has one entry per input entry. -/
theorem rollingMean_length (w : Nat) (xs : List ℚ) :
    (rollingMean w xs).length = xs.length := by
  simp [rollingMean]

/-- The trailing window at index `i` holds `min (i+1) w` samples: the full
window once available, and the whole prefix (at least one sample, never a
null) near the start of the series. -/
theorem rollWindow_length (w : Nat) (xs : List ℚ) (i : Nat) (hi : i < xs.length) :
    (rollWindow w xs i).length = min (i + 1) w := by
  simp [rollWindow]
  omega

/-- Unfolding `groupOut` over a cons cell. -/
theorem groupOut_cons (o : Obs) (t : List Obs) (v : ℚ) (out : List ℚ) (k : String) :
    groupOut (o :: t) (v :: out) k =
      if o.keyword = k then v :: groupOut t out k else groupOut t out k := by
  by_cases h : o.keyword = k <;> simp [groupOut, List.zip_cons_cons, List.filter_cons, h]

/-- Unfolding `countK` over a cons cell. -/
theorem countK_cons (o : Obs) (t : List Obs) (k : String) :
    countK (o :: t) k = (if o.keyword = k then 1 else 0) + countK t k := by
  by_cases h : o.keyword = k <;> simp [countK, List.filter_cons, h] <;> omega

/-- The group has as many rows as its value series has entries. -/
theorem groupVals_length (ds : List Obs) (k : String) :
    (groupVals ds k).length = countK ds k := by
  simp [groupVals, countK]

/-- Core alignment property of `transform`: the outputs attached to keyword
`k`'s rows are exactly the corresponding slice of `f` applied to `k`'s own
series — rows of other keywords never contribute. -/
theorem transformGo_groupOut (f : List ℚ → List ℚ) (ds : List Obs) (k : String) :
    ∀ (rest : List Obs) (cnt : String → Nat),
      cnt k + countK rest k ≤ (f (groupVals ds k)).length →
      groupOut rest (transformGo f ds rest cnt) k =
        ((f (groupVals ds k)).drop (cnt k)).take (countK rest k) := by
  intro rest
  induction rest with
  | nil =>
    intro cnt h
    simp [groupOut, transformGo, countK]
  | cons o t ih =>
    intro cnt h
    rw [countK_cons] at h ⊢
    by_cases hk : o.keyword = k
    · rw [if_pos hk] at h ⊢
      subst hk
      have hcnt : cnt o.keyword < (f (groupVals ds o.keyword)).length := by omega
      show groupOut (o :: t)
          ((f (groupVals ds o.keyword)).getD (cnt o.keyword) 0 ::
            transformGo f ds t (fun j => if j = o.keyword then cnt j + 1 else cnt j)) o.keyword = _
      rw [groupOut_cons, if_pos rfl]
      have hupd : (fun j => if j = o.keyword then cnt j + 1 else cnt j) o.keyword
          = cnt o.keyword + 1 := by simp
      have hstep := ih (fun j => if j = o.keyword then cnt j + 1 else cnt j) (by
        rw [hupd]
        omega)
      rw [hupd] at hstep
      rw [hstep]
      rw [List.getD_eq_getElem?_getD, List.getElem?_eq_getElem hcnt]
      rw [List.drop_eq_getElem_cons hcnt]
      rw [Nat.add_comm 1 (countK t o.keyword), List.take_succ_cons]
      rfl
    · rw [if_neg hk] at h ⊢
      have hkk : k ≠ o.keyword := fun hc => hk hc.symm
      show groupOut (o :: t)
          ((f (groupVals ds o.keyword)).getD (cnt o.keyword) 0 ::
            transformGo f ds t (fun j => if j = o.keyword then cnt j + 1 else cnt j)) k = _
      rw [groupOut_cons, if_neg hk]
      have hupd : (fun j => if j = o.keyword then cnt j + 1 else cnt j) k = cnt k := by
        simp [hkk]
      have hstep := ih (fun j => if j = o.keyword then cnt j + 1 else cnt j) (by
        rw [hupd]
        omega)
      rw [hupd] at hstep
      rw [hstep]
      simp only [Nat.zero_add]

/-- **C7.** With a smoothing window `w > 1`: the pipeline feeds the rolling
mean of the raw series (not the raw series) to the mode formula; the rolling
mean has one entry per input row; the trailing window at index `i` holds
`min (i+1) w` samples — fewer than `w` only at the series start, and never
zero, so there are no leading nulls; and the smoothed values attached to one
keyword's rows are computed from that keyword's series alone (the window
never mixes rows of different entities). -/
theorem smoothing_before_mode (mode : Mode) (w : Nat) (xs : List ℚ) (ds : List Obs)
    (k : String) (hw : 1 < w) :
    displayGroup mode w xs = modeApply mode (rollingMean w xs) ∧
    (rollingMean w xs).length = xs.length ∧
    (∀ i : Nat, i < xs.length → (rollWindow w xs i).length = min (i + 1) w) ∧
    groupOut ds (transformBy (rollingMean w) ds) k = rollingMean w (groupVals ds k) := by
  refine ⟨by simp [displayGroup, Nat.lt_of_lt_of_le Nat.zero_lt_one (Nat.le_of_lt hw)],
    rollingMean_length w xs, fun i hi => rollWindow_length w xs i hi, ?_⟩
  have hlen : countK ds k ≤ (rollingMean w (groupVals ds k)).length := by
    rw [rollingMean_length, groupVals_length]
  have := transformGo_groupOut (rollingMean w) ds k ds (fun _ => 0) (by simpa using hlen)
  rw [transformBy, this, List.drop_zero]
  rw [← groupVals_length, ← rollingMean_length w (groupVals ds k)]
  exact List.take_length _

/-- **C7 witness.** A concrete interleaved table with two keywords: keyword
`A`'s smoothed series is the rolling mean of `A`'s own values only. -/
theorem smoothing_before_mode_witness :
    (1 < 2) ∧
    (displayGroup Mode.normalized 2 ([10, 30] : List ℚ) =
       modeApply Mode.normalized (rollingMean 2 ([10, 30] : List ℚ)) ∧
     (rollingMean 2 ([10, 30] : List ℚ)).length = ([10, 30] : List ℚ).length ∧
     (∀ i : Nat, i < ([10, 30] : List ℚ).length →
        (rollWindow 2 ([10, 30] : List ℚ) i).length = min (i + 1) 2) ∧
     groupOut obsExample (transformBy (rollingMean 2) obsExample) kwA =
       rollingMean 2 (groupVals obsExample kwA)) :=
  ⟨by decide, smoothing_before_mode Mode.normalized 2 ([10, 30] : List ℚ) obsExample kwA
    (by decide)⟩

/-- `memStr` agrees with list membership. -/
theorem memStr_iff (k : String) (l : List String) : memStr k l = true ↔ k ∈ l := by
  simp [memStr]

/-- A keyword in a date's local top-N comes from a row of the table at that date. -/
theorem topKeywordsAt_exists_row (n : Nat) (ds : List PlotRow) (d : Nat) (k : String)
    (hk : k ∈ topKeywordsAt n ds d) : ∃ r ∈ ds, r.keyword = k ∧ r.date = d := by
  rw [topKeywordsAt, nlargestKw, List.mem_dedup] at hk
  obtain ⟨r, hrtake, hkr⟩ := List.mem_map.mp hk
  have hrsorted : r ∈ (rowsAt ds d).insertionSort dispGE := List.take_subset _ _ hrtake
  have hrrows : r ∈ rowsAt ds d := (List.perm_insertionSort dispGE (rowsAt ds d)).mem_iff.mp hrsorted
  rw [rowsAt, List.mem_filter] at hrrows
  exact ⟨r, hrrows.1, hkr, by simpa using hrrows.2⟩

/-- **C6.** The top-N selector: `n = 0` filters nothing; for `n > 0` the kept
entity set is exactly the union over dates of the local top-N keyword sets;
and a kept entity keeps all of its rows (at every date where it has rows). -/
theorem topN_union_property (n : Nat) (ds : List PlotRow) :
    (n = 0 → topNFilter n ds = ds) ∧
    (0 < n → ∀ k : String,
        ((∃ r ∈ topNFilter n ds, r.keyword = k) ↔ ∃ d ∈ datesOf ds, k ∈ topKeywordsAt n ds d)) ∧
    (∀ r ∈ ds, ∀ r' ∈ ds, r.keyword = r'.keyword →
        r ∈ topNFilter n ds → r' ∈ topNFilter n ds) := by
  refine ⟨fun h => by simp [topNFilter, h], fun hn k => ?_, fun r hr r' hr' hkeq hrmem => ?_⟩
  · rw [topNFilter, if_pos hn]
    constructor
    · rintro ⟨r, hrmem, rfl⟩
      rw [List.mem_filter] at hrmem
      have := (memStr_iff _ _).mp hrmem.2
      rw [allTopKeywords, List.mem_flatMap] at this
      obtain ⟨d, hd, hkd⟩ := this
      exact ⟨d, hd, hkd⟩
    · rintro ⟨d, hd, hkd⟩
      obtain ⟨r, hrds, hkr, _⟩ := topKeywordsAt_exists_row n ds d k hkd
      refine ⟨r, List.mem_filter.mpr ⟨hrds, (memStr_iff _ _).mpr ?_⟩, hkr⟩
      rw [allTopKeywords, List.mem_flatMap, hkr]
      exact ⟨d, hd, hkd⟩
  · by_cases hn : 0 < n
    · rw [topNFilter, if_pos hn] at hrmem ⊢
      rw [List.mem_filter] at hrmem ⊢
      exact ⟨hr', by rw [← hkeq]; exact hrmem.2⟩
    · rw [topNFilter, if_neg hn]
      exact hr'

/-- **C6 witness.** On the spec's example with `N = 2`, the filtered table
keeps exactly the `{A, B, C}` rows at both dates and drops all `D` rows. -/
theorem topN_union_property_witness :
    ((2 = 0 → topNFilter 2 plotExample = plotExample) ∧
     (0 < 2 → ∀ k : String,
        ((∃ r ∈ topNFilter 2 plotExample, r.keyword = k) ↔
          ∃ d ∈ datesOf plotExample, k ∈ topKeywordsAt 2 plotExample d)) ∧
     (∀ r ∈ plotExample, ∀ r' ∈ plotExample, r.keyword = r'.keyword →
        r ∈ topNFilter 2 plotExample → r' ∈ topNFilter 2 plotExample)) ∧
    topNFilter 2 plotExample =
      [⟨kwA, 1, 10⟩, ⟨kwB, 1, 8⟩, ⟨kwC, 1, 5⟩, ⟨kwA, 2, 3⟩, ⟨kwB, 2, 9⟩, ⟨kwC, 2, 7⟩] :=
  ⟨topN_union_property 2 plotExample, by decide⟩

/-- The cleaning stage keeps exactly the rows with a parsed date and a
numeric value, in order, converting their value cells. -/
theorem processRows_eq (rows : List RawRow) :
    processRows rows =
      (rows.filter (fun r => r.date.isSome && (r.vol.bind parseNumQ).isSome)).map
        (fun r => ⟨r.keyword, r.date, r.vol.bind parseNumQ⟩) := by
  induction rows with
  | nil => rfl
  | cons r t ih =>
    rcases r with ⟨k, d, v⟩
    cases d with
    | none =>
      simpa [processRows, dropNaStep, toNumericStep, dropNaVolStep, List.filter_cons] using ih
    | some dd =>
      cases v with
      | none =>
        simpa [processRows, dropNaStep, toNumericStep, dropNaVolStep, List.filter_cons] using ih
      | some vv =>
        cases hq : parseNumQ vv with
        | none =>
          simpa [processRows, dropNaStep, toNumericStep, dropNaVolStep, List.filter_cons,
            hq] using ih
        | some q =>
          simpa [processRows, dropNaStep, toNumericStep, dropNaVolStep, List.filter_cons,
            hq] using ih

/-- **C8.** After the cleaning stage and before any transform, every row has a
non-null timestamp and a numeric (non-NaN) value, and the surviving rows are
exactly the input rows whose date parsed and whose value parses as a real
number — all others are discarded. -/
theorem ingestion_invariant (rows : List RawRow) :
    (∀ r ∈ processRows rows, r.date.isSome ∧ r.num.isSome) ∧
    processRows rows =
      (rows.filter (fun r => r.date.isSome && (r.vol.bind parseNumQ).isSome)).map
        (fun r => ⟨r.keyword, r.date, r.vol.bind parseNumQ⟩) := by
  refine ⟨fun r hr => ?_, processRows_eq rows⟩
  rw [processRows_eq] at hr
  obtain ⟨s, hs, rfl⟩ := List.mem_map.mp hr
  rw [List.mem_filter] at hs
  have h2 := hs.2
  simp only [Bool.and_eq_true] at h2
  exact ⟨h2.1, h2.2⟩

/-- **C8 witness.** On the concrete raw table only the clean row survives,
with its value parsed to `10`. -/
theorem ingestion_invariant_witness :
    ((∀ r ∈ processRows rawExample, r.date.isSome ∧ r.num.isSome) ∧
     processRows rawExample =
       (rawExample.filter (fun r => r.date.isSome && (r.vol.bind parseNumQ).isSome)).map
         (fun r => ⟨r.keyword, r.date, r.vol.bind parseNumQ⟩)) ∧
    processRows rawExample = [⟨kwA, some ⟨2023, 1, 2⟩, some 10⟩] :=
  ⟨ingestion_invariant rawExample, by decide⟩

/-- **C9 counterexample.** On the schema `["update_volume", "kw"]` the
missing-columns branch is taken and automatic substring detection assigns the
single column `update_volume` to *both* the time role (it contains `date`)
and the value role (it contains `volume`) — one column holds two roles, and
no error of any kind is raised. -/
theorem resolver_double_assignment_cex :
    missingColumns resolverCexCols ≠ [] ∧
    (resolveRoles resolverCexCols).dateCol = some sUpdateVolume ∧
    (resolveRoles resolverCexCols).volCol = some sUpdateVolume ∧
    (resolveRoles resolverCexCols).dateCol = (resolveRoles resolverCexCols).volCol := by
  refine ⟨by decide, by decide, by decide, by decide⟩

/-- **C9 amended.** The resolver is total (no `MissingRoleError` exists): the
time role is unassigned only for an empty schema (otherwise auto-detection or
the manual default assigns it); and only the *manual* candidate lists exclude
already-assigned columns — the keyword selection never returns the date
column, and the volume selection never returns the date column or the
`keyword` column. (Automatic substring detection performs no such exclusion,
as the counterexample shows.) -/
theorem resolver_manual_exclusion (cols : List String) :
    ((resolveRoles cols).dateCol = none ↔ cols = []) ∧
    (∀ k : String, autoKw (colsAfterDate cols) = none →
        (resolveRoles cols).kwCol = some k → some k ≠ (resolveRoles cols).dateCol) ∧
    (∀ v : String, autoVol (renamedCols cols) = none →
        (resolveRoles cols).volCol = some v →
        some v ≠ (resolveRoles cols).dateCol ∧ v ≠ sKeyword) := by
  refine ⟨?_, ?_, ?_⟩
  · show dateColOf cols = none ↔ cols = []
    cases had : autoDate cols with
    | some c =>
      constructor
      · intro h
        simp [dateColOf, had] at h
      · rintro rfl
        simp [autoDate] at had
    | none =>
      simp [dateColOf, had, List.head?_eq_none_iff]
  · intro k hauto hk
    show some k ≠ dateColOf cols
    rw [show (resolveRoles cols).kwCol = kwChoice cols from rfl] at hk
    rw [kwChoice, hauto] at hk
    by_cases hmem : sKeyword ∈ colsAfterDate cols
    · rw [if_pos hmem] at hk
      exact absurd hk (by simp)
    · rw [if_neg hmem] at hk
      have hk' : ((colsAfterDate cols).filter
          (fun c => !(some c == dateColOf cols))).head? = some k := hk
      have hkmem := List.mem_of_mem_head? (by rw [hk']; rfl)
      rw [List.mem_filter] at hkmem
      have := hkmem.2
      simp only [Bool.not_eq_true', beq_eq_false_iff_ne, ne_eq] at this
      exact this
  · intro v hauto hv
    rw [show (resolveRoles cols).volCol = volChoice cols from rfl] at hv
    rw [volChoice, hauto] at hv
    by_cases hmem : sSearchVolume ∈ renamedCols cols
    · rw [if_pos hmem] at hv
      exact absurd hv (by simp)
    · rw [if_neg hmem] at hv
      have hv' : ((renamedCols cols).filter
          (fun c => !(some c == dateColOf cols) && !(c == sKeyword))).head? = some v := hv
      have hvmem := List.mem_of_mem_head? (by rw [hv']; rfl)
      rw [List.mem_filter] at hvmem
      have := hvmem.2
      simp only [Bool.and_eq_true, Bool.not_eq_true', beq_eq_false_iff_ne, ne_eq] at this
      exact ⟨this.1, this.2⟩

/-- **C9 amended witness.** On the schema `["a", "b"]` every auto-detection
fails; the manual defaults assign the first column to time, the next
remaining column to keyword, and the only remaining column (the added `date`)
to volume — all three distinct, no error raised. -/
theorem resolver_manual_exclusion_witness :
    (((resolveRoles plainCols).dateCol = none ↔ plainCols = []) ∧
     (∀ k : String, autoKw (colsAfterDate plainCols) = none →
        (resolveRoles plainCols).kwCol = some k → some k ≠ (resolveRoles plainCols).dateCol) ∧
     (∀ v : String, autoVol (renamedCols plainCols) = none →
        (resolveRoles plainCols).volCol = some v →
        some v ≠ (resolveRoles plainCols).dateCol ∧ v ≠ sKeyword)) ∧
    resolveRoles plainCols = ⟨some sColA, some sColB, some sDate⟩ :=
  ⟨resolver_manual_exclusion plainCols, by decide⟩

/-- **C10.** A successfully parsed upload with fewer than 2 data rows is
replaced by the sample dataset, so the cleaning stage (and everything after
it) runs on the sample, never on the rejected table. -/
theorem small_upload_uses_sample (rows sample : List RawRow) (h : rows.length < 2) :
    loadUploaded (some rows) sample = sample ∧
    processRows (loadUploaded (some rows) sample) = processRows sample := by
  have hload : loadUploaded (some rows) sample = sample := by simp [loadUploaded, h]
  exact ⟨hload, by rw [hload]⟩

/-- **C10 witness.** The concrete one-row upload is replaced by the sample. -/
theorem small_upload_uses_sample_witness :
    smallUpload.length < 2 ∧
    (loadUploaded (some smallUpload) rawExample = rawExample ∧
     processRows (loadUploaded (some smallUpload) rawExample) = processRows rawExample) :=
  ⟨by decide, small_upload_uses_sample smallUpload rawExample (by decide)⟩

end SearchDemand
